import Mathlib

/-!
Verification of the anchor-target / box-transform core of a region-proposal
detection pipeline (`detection/core/bbox/transforms.py` and
`detection/core/anchor/anchor_target.py`).

The box transforms (`bbox2delta`, `delta2bbox`, `bbox_clip`) are embedded over
the real numbers (the float32 code idealised over ℝ, with `Real.log` /
`Real.exp` for `tf.log` / `tf.exp`).  The per-image target-building algorithm
`AnchorTarget._build_single_target` is embedded over the rationals so that all
label computations are executable and decidable.  TensorFlow runtime errors
(in particular `tf.argmax` raising `InvalidArgumentError` on an empty
reduction axis) are modelled by an `Option` result: `none` means the original
code raises on that input.
-/

/-- A bounding box `(y1, x1, y2, x2)`, matching the coordinate order used
throughout the source. -/
@[ext]
structure Box (α : Type) where
  y1 : α
  x1 : α
  y2 : α
  x2 : α
deriving DecidableEq

/-- A box-regression target `(dy, dx, dh, dw)` as produced by `bbox2delta`. -/
@[ext]
structure Delta (α : Type) where
  dy : α
  dx : α
  dh : α
  dw : α
deriving DecidableEq

/-- The all-zero rational box, used as the padding row of a ground-truth
array and as an out-of-range default. -/
def zeroQBox : Box ℚ := ⟨0, 0, 0, 0⟩

/-- The all-zero real delta row, used for padding the delta output. -/
noncomputable def zeroDeltaR : Delta ℝ := ⟨0, 0, 0, 0⟩

/-- Interpret a rational box as a real box (the float cast
`tf.cast(box, tf.float32)` at the head of `bbox2delta`, idealised). -/
noncomputable def boxToReal (b : Box ℚ) : Box ℝ :=
  ⟨(b.y1 : ℝ), (b.x1 : ℝ), (b.y2 : ℝ), (b.x2 : ℝ)⟩

/-- `bbox2delta` from `detection/core/bbox/transforms.py`: compute the
refinement needed to transform `box` into `gt`, normalised by
`target_means` / `target_stds`. -/
noncomputable def bbox2delta (box gt : Box ℝ) (means stds : Delta ℝ) : Delta ℝ :=
  let height := box.y2 - box.y1
  let width := box.x2 - box.x1
  let centerY := box.y1 + 0.5 * height
  let centerX := box.x1 + 0.5 * width
  let gtHeight := gt.y2 - gt.y1
  let gtWidth := gt.x2 - gt.x1
  let gtCenterY := gt.y1 + 0.5 * gtHeight
  let gtCenterX := gt.x1 + 0.5 * gtWidth
  let dy := (gtCenterY - centerY) / height
  let dx := (gtCenterX - centerX) / width
  let dh := Real.log (gtHeight / height)
  let dw := Real.log (gtWidth / width)
  ⟨(dy - means.dy) / stds.dy, (dx - means.dx) / stds.dx,
   (dh - means.dh) / stds.dh, (dw - means.dw) / stds.dw⟩

/-- `delta2bbox` from `detection/core/bbox/transforms.py`: apply a
(normalised) delta to `box`. -/
noncomputable def delta2bbox (box : Box ℝ) (delta : Delta ℝ) (means stds : Delta ℝ) : Box ℝ :=
  let dy := delta.dy * stds.dy + means.dy
  let dx := delta.dx * stds.dx + means.dx
  let dh := delta.dh * stds.dh + means.dh
  let dw := delta.dw * stds.dw + means.dw
  let height := box.y2 - box.y1
  let width := box.x2 - box.x1
  let centerY := box.y1 + 0.5 * height + dy * height
  let centerX := box.x1 + 0.5 * width + dx * width
  let newHeight := height * Real.exp dh
  let newWidth := width * Real.exp dw
  let y1 := centerY - 0.5 * newHeight
  let x1 := centerX - 0.5 * newWidth
  ⟨y1, x1, y1 + newHeight, x1 + newWidth⟩

/-- The delta formula exactly as worded in the spec (§4.2): centers and sizes
`cy = y1 + 0.5*(y2-y1)`, `h = y2-y1`; raw delta
`(dy, dx, dh, dw) = ((gt_cy-cy)/h, (gt_cx-cx)/w, log(gt_h/h), log(gt_w/w))`;
then `delta = (raw_delta - means) / stds` elementwise. -/
noncomputable def bbox2deltaSpec (box gt : Box ℝ) (means stds : Delta ℝ) : Delta ℝ :=
  let h := box.y2 - box.y1
  let w := box.x2 - box.x1
  let cy := box.y1 + 0.5 * (box.y2 - box.y1)
  let cx := box.x1 + 0.5 * (box.x2 - box.x1)
  let gth := gt.y2 - gt.y1
  let gtw := gt.x2 - gt.x1
  let gtcy := gt.y1 + 0.5 * (gt.y2 - gt.y1)
  let gtcx := gt.x1 + 0.5 * (gt.x2 - gt.x1)
  let raw : Delta ℝ := ⟨(gtcy - cy) / h, (gtcx - cx) / w,
    Real.log (gth / h), Real.log (gtw / w)⟩
  ⟨(raw.dy - means.dy) / stds.dy, (raw.dx - means.dx) / stds.dx,
   (raw.dh - means.dh) / stds.dh, (raw.dw - means.dw) / stds.dw⟩

/-- `bbox_clip` from `detection/core/bbox/transforms.py`: clamp every
coordinate into the window `(wy1, wx1, wy2, wx2)` with
`max(min(v, hi), lo)` semantics, per axis. -/
noncomputable def bbox_clip (box window : Box ℝ) : Box ℝ :=
  ⟨max (min box.y1 window.y2) window.y1,
   max (min box.x1 window.x2) window.x1,
   max (min box.y2 window.y2) window.y1,
   max (min box.x2 window.x2) window.x1⟩

/-- Modelled from the spec: area of a box, used by the IoU computation of
`compute_overlaps` (`detection/core/bbox/geometry.py`, not part of the
provided sources). -/
def boxArea (b : Box ℚ) : ℚ := (b.y2 - b.y1) * (b.x2 - b.x1)

/-- Modelled from the spec: `compute_overlaps` entry (§4.1) for one pair of
boxes (`detection/core/bbox/geometry.py` is not part of the provided
sources).  `IoU = intersection / union` with
`intersection = max(0, min(y2) - max(y1)) * max(0, min(x2) - max(x1))`,
`union = area_a + area_b - intersection`, and IoU defined as 0 when the
union area is 0. -/
def iou (a b : Box ℚ) : ℚ :=
  let ih := max 0 (min a.y2 b.y2 - max a.y1 b.y1)
  let iw := max 0 (min a.x2 b.x2 - max a.x1 b.x1)
  let inter := ih * iw
  let uni := boxArea a + boxArea b - inter
  if uni = 0 then 0 else inter / uni

/-- Modelled from the spec: `trim_zeros` (`detection/utils/misc.py`, not part
of the provided sources) — drop the all-zero padding rows of the
ground-truth array, preserving the order of the remaining rows. -/
def trimZeros (boxes : List (Box ℚ)) : List (Box ℚ) :=
  boxes.filter (fun b => b ≠ zeroQBox)

/-- `tf.reduce_max` along a nonempty axis: maximum of a list of IoU values
(the value on `[]` is irrelevant junk; the code raises on an empty reduction
axis before any use of an empty maximum). -/
def listMax : List ℚ → ℚ
  | [] => 0
  | [x] => x
  | x :: y :: t => max x (listMax (y :: t))

/-- `tf.argmax` along a nonempty axis: FIRST index attaining the maximum
(stable argmax, as in TensorFlow).  The value on `[]` is irrelevant junk;
on an empty reduction axis the original `tf.argmax` raises, which the
pipeline models by returning `none` before any use of this value. -/
def listArgmax : List ℚ → Nat
  | [] => 0
  | [_] => 0
  | x :: y :: t => if x < listMax (y :: t) then listArgmax (y :: t) + 1 else 0

/-- Row `i` of the overlap matrix: IoU of anchor `i` against every
ground-truth box. -/
def overlapsRow (anchors gts : List (Box ℚ)) (i : Nat) : List ℚ :=
  gts.map (iou (anchors.getD i zeroQBox))

/-- Column `j` of the overlap matrix: IoU of every anchor against
ground-truth box `j`. -/
def overlapsCol (anchors gts : List (Box ℚ)) (j : Nat) : List ℚ :=
  anchors.map (fun a => iou a (gts.getD j zeroQBox))

/-- `anchor_iou_max[i] = max_j overlaps[i, j]` (`tf.reduce_max` over axis 1). -/
def anchorIouMax (anchors gts : List (Box ℚ)) (i : Nat) : ℚ :=
  listMax (overlapsRow anchors gts i)

/-- `anchor_iou_argmax[i] = argmax_j overlaps[i, j]` (`tf.argmax` over axis 1). -/
def anchorIouArgmax (anchors gts : List (Box ℚ)) (i : Nat) : Nat :=
  listArgmax (overlapsRow anchors gts i)

/-- `gt_iou_argmax[j] = argmax_i overlaps[i, j]` (`tf.argmax` over axis 0). -/
def gtIouArgmax (anchors gts : List (Box ℚ)) (j : Nat) : Nat :=
  listArgmax (overlapsCol anchors gts j)

/-- `num_rpn_deltas` from the `AnchorTarget` constructor. -/
def numRpnDeltas : Nat := 256

/-- Steps 4-7 of the per-image algorithm, i.e. the three elementwise
`tf.where` updates of `_build_single_target`: start from all-neutral labels;
label `-1` where `anchor_iou_max < neg_iou_thr` (0.3); force `0` where
`valid_flags ≠ 1`; label `1` where `anchor_iou_max ≥ pos_iou_thr` (0.7),
not gated by validity. -/
def labelsAfterPos (anchors : List (Box ℚ)) (valid : List ℤ) (gts : List (Box ℚ)) : List ℤ :=
  (List.range anchors.length).map (fun i =>
    let m := anchorIouMax anchors gts i
    let neg : ℤ := if m < 3/10 then -1 else 0
    let val : ℤ := if valid.getD i 0 = 1 then neg else 0
    if 7/10 ≤ m then 1 else val)

/-- `tf.scatter_update(labels, idxs, v)`: write the constant `v` at every
index of `idxs` (out-of-range indices write nothing, which never happens in
the pipeline). -/
def scatterVal (v : ℤ) (labels : List ℤ) (idxs : List Nat) : List ℤ :=
  idxs.foldl (fun l i => l.set i v) labels

/-- Step 8, the forced-coverage scatter: set the label of
`gt_iou_argmax[j]` to `1` for every ground-truth box `j`. -/
def labelsAfterForced (anchors : List (Box ℚ)) (valid : List ℤ) (gts : List (Box ℚ)) : List ℤ :=
  scatterVal 1 (labelsAfterPos anchors valid gts)
    ((List.range gts.length).map (gtIouArgmax anchors gts))

/-- `tf.squeeze(tf.where(tf.equal(labels, v)), 1)`: the ascending list of
indices whose label is `v`. -/
def idsOf (labels : List ℤ) (v : ℤ) : List Nat :=
  (List.range labels.length).filter (fun i => labels.getD i 0 == v)

/-- Step 9, positive subsampling: if the positives exceed
`num_rpn_deltas // 2` (128), reset a random excess of them to neutral.  The
random choice `tf.random_shuffle` is an explicit oracle `s1`. -/
def subsamplePos (s1 : List Nat → List Nat) (labels : List ℤ) : List ℤ :=
  let ids := idsOf labels 1
  let extra : ℤ := (ids.length : ℤ) - (numRpnDeltas / 2 : Nat)
  if 0 < extra then scatterVal 0 labels ((s1 ids).take extra.toNat) else labels

/-- Step 10, negative subsampling: if the negatives exceed
`num_rpn_deltas - count(labels == 1)`, reset a random excess of them to
neutral.  The random choice is an explicit oracle `s2`. -/
def subsampleNeg (s2 : List Nat → List Nat) (labels : List ℤ) : List ℤ :=
  let ids := idsOf labels (-1)
  let extra : ℤ := (ids.length : ℤ) -
    ((numRpnDeltas : ℤ) - (labels.countP (fun v => v == 1) : ℤ))
  if 0 < extra then scatterVal 0 labels ((s2 ids).take extra.toNat) else labels

/-- The full label pipeline of `_build_single_target` on the already-trimmed
ground-truth list. -/
def finalLabels (anchors : List (Box ℚ)) (valid : List ℤ) (gts : List (Box ℚ))
    (s1 s2 : List Nat → List Nat) : List ℤ :=
  subsampleNeg s2 (subsamplePos s1 (labelsAfterForced anchors valid gts))

/-- The label phase of `_build_single_target`: trim the zero-padding rows of
the ground-truth array, then run steps 4-10.  `none` models the
`InvalidArgumentError` that `tf.argmax` raises on an empty reduction axis:
axis 1 is empty exactly when the trimmed ground-truth list is empty, and
axis 0 is empty exactly when the anchor list is empty. -/
def buildLabels (anchors : List (Box ℚ)) (valid : List ℤ) (gtBoxesRaw : List (Box ℚ))
    (s1 s2 : List Nat → List Nat) : Option (List ℤ) :=
  let gts := trimZeros gtBoxesRaw
  if gts = [] ∨ anchors = [] then none
  else some (finalLabels anchors valid gts s1 s2)

/-- Steps 11-12 of `_build_single_target`: gather the positive anchors in
ascending index order, pair each with its `anchor_iou_argmax` ground-truth
box, encode with `bbox2delta`, and pad with zero rows up to
`num_rpn_deltas` (`tf.maximum(num_rpn_deltas - n, 0)` is the truncated
natural subtraction). -/
noncomputable def targetDeltas (anchors gts : List (Box ℚ)) (labels : List ℤ)
    (means stds : Delta ℝ) : List (Delta ℝ) :=
  let ids := idsOf labels 1
  let a := ids.map (fun i => anchors.getD i zeroQBox)
  let anchorIdx := ids.map (fun i => anchorIouArgmax anchors gts i)
  let gt := anchorIdx.map (fun j => gts.getD j zeroQBox)
  let deltas := (a.zip gt).map (fun p => bbox2delta (boxToReal p.1) (boxToReal p.2) means stds)
  deltas ++ List.replicate (numRpnDeltas - deltas.length) zeroDeltaR

/-- `AnchorTarget._build_single_target`: labels plus padded delta targets;
`none` models the TensorFlow runtime error raised on an empty reduction
axis (see `buildLabels`). -/
noncomputable def buildSingleTarget (anchors : List (Box ℚ)) (valid : List ℤ)
    (gtBoxesRaw : List (Box ℚ)) (s1 s2 : List Nat → List Nat)
    (means stds : Delta ℝ) : Option (List ℤ × List (Delta ℝ)) :=
  (buildLabels anchors valid gtBoxesRaw s1 s2).map
    (fun labels => (labels, targetDeltas anchors (trimZeros gtBoxesRaw) labels means stds))

/-- The unit-square box `(i, 0, i+1, 1)` used by the concrete stacked-anchor
scenarios: distinct unit squares meet at most in an edge, so the overlap
matrix of `unitAnchors n` against itself is the identity. -/
def unitBox (i : Nat) : Box ℚ := ⟨(i : ℚ), 0, (i : ℚ) + 1, 1⟩

/-- `n` vertically stacked unit squares, used both as the anchor set and as
the ground-truth set of the forced-positive-overflow scenarios. -/
def unitAnchors (n : Nat) : List (Box ℚ) := (List.range n).map unitBox

/-- An all-valid flag vector. -/
def onesFlags (n : Nat) : List ℤ := List.replicate n 1

/-- C1: Round-trip identity of the box parameterization: for every
non-degenerate box/gt pair (positive heights and widths) and any means and
positive stds, `delta2bbox box (bbox2delta box gt means stds) means stds = gt`
(exactly, over the reals). -/
theorem delta2bbox_bbox2delta_roundtrip (box gt : Box ℝ) (means stds : Delta ℝ)
    (hh : 0 < box.y2 - box.y1) (hw : 0 < box.x2 - box.x1)
    (hgh : 0 < gt.y2 - gt.y1) (hgw : 0 < gt.x2 - gt.x1)
    (hsy : 0 < stds.dy) (hsx : 0 < stds.dx) (hsh : 0 < stds.dh) (hsw : 0 < stds.dw) :
    delta2bbox box (bbox2delta box gt means stds) means stds = gt := by
  have hh0 : box.y2 - box.y1 ≠ 0 := ne_of_gt hh
  have hw0 : box.x2 - box.x1 ≠ 0 := ne_of_gt hw
  have hsy0 : stds.dy ≠ 0 := ne_of_gt hsy
  have hsx0 : stds.dx ≠ 0 := ne_of_gt hsx
  have hsh0 : stds.dh ≠ 0 := ne_of_gt hsh
  have hsw0 : stds.dw ≠ 0 := ne_of_gt hsw
  have hey : Real.exp (Real.log ((gt.y2 - gt.y1) / (box.y2 - box.y1))) =
      (gt.y2 - gt.y1) / (box.y2 - box.y1) := Real.exp_log (div_pos hgh hh)
  have hex : Real.exp (Real.log ((gt.x2 - gt.x1) / (box.x2 - box.x1))) =
      (gt.x2 - gt.x1) / (box.x2 - box.x1) := Real.exp_log (div_pos hgw hw)
  simp only [delta2bbox, bbox2delta]
  rw [div_mul_cancel₀ _ hsy0, div_mul_cancel₀ _ hsx0,
      div_mul_cancel₀ _ hsh0, div_mul_cancel₀ _ hsw0]
  refine Box.ext ?_ ?_ ?_ ?_ <;>
    simp only [sub_add_cancel, hey, hex] <;>
    field_simp

/-- C7: `bbox2delta` computes, for every input, exactly the spec's formula:
raw delta `((gt_cy-cy)/h, (gt_cx-cx)/w, log(gt_h/h), log(gt_w/w))` with
`cy = y1 + 0.5*(y2-y1)`, `h = y2-y1` (likewise for x and for gt), then
`(raw - means) / stds` elementwise. -/
theorem bbox2delta_matches_spec (box gt : Box ℝ) (means stds : Delta ℝ) :
    bbox2delta box gt means stds = bbox2deltaSpec box gt means stds := by
  simp only [bbox2delta, bbox2deltaSpec]

/-- C9: `bbox_clip` computes each output coordinate as `max(min(v, hi), lo)`
against the matching axis of the window, and when `wy1 ≤ wy2` and `wx1 ≤ wx2`
every output coordinate lies inside the window interval for its axis. -/
theorem bbox_clip_clamps (box window : Box ℝ) :
    (bbox_clip box window).y1 = max (min box.y1 window.y2) window.y1 ∧
    (bbox_clip box window).x1 = max (min box.x1 window.x2) window.x1 ∧
    (bbox_clip box window).y2 = max (min box.y2 window.y2) window.y1 ∧
    (bbox_clip box window).x2 = max (min box.x2 window.x2) window.x1 ∧
    (window.y1 ≤ window.y2 → window.x1 ≤ window.x2 →
      window.y1 ≤ (bbox_clip box window).y1 ∧ (bbox_clip box window).y1 ≤ window.y2 ∧
      window.x1 ≤ (bbox_clip box window).x1 ∧ (bbox_clip box window).x1 ≤ window.x2 ∧
      window.y1 ≤ (bbox_clip box window).y2 ∧ (bbox_clip box window).y2 ≤ window.y2 ∧
      window.x1 ≤ (bbox_clip box window).x2 ∧ (bbox_clip box window).x2 ≤ window.x2) := by
  refine ⟨rfl, rfl, rfl, rfl, fun hy hx => ?_⟩
  simp only [bbox_clip]
  refine ⟨le_max_right _ _, max_le (min_le_right _ _) hy,
          le_max_right _ _, max_le (min_le_right _ _) hx,
          le_max_right _ _, max_le (min_le_right _ _) hy,
          le_max_right _ _, max_le (min_le_right _ _) hx⟩

/-- Witness for C1: the round-trip identity at the concrete pair
`box = (0,0,1,1)`, `gt = (0,0,2,4)` with zero means and unit stds. -/
theorem delta2bbox_bbox2delta_roundtrip_witness :
    delta2bbox ⟨0, 0, 1, 1⟩
      (bbox2delta ⟨0, 0, 1, 1⟩ ⟨0, 0, 2, 4⟩ ⟨0, 0, 0, 0⟩ ⟨1, 1, 1, 1⟩)
      ⟨0, 0, 0, 0⟩ ⟨1, 1, 1, 1⟩ = (⟨0, 0, 2, 4⟩ : Box ℝ) :=
  delta2bbox_bbox2delta_roundtrip ⟨0, 0, 1, 1⟩ ⟨0, 0, 2, 4⟩ ⟨0, 0, 0, 0⟩ ⟨1, 1, 1, 1⟩
    (by norm_num) (by norm_num) (by norm_num) (by norm_num)
    (by norm_num) (by norm_num) (by norm_num) (by norm_num)

/-- Witness for C9: clamping the box `(-5, 3, 50, 90)` into the window
`(0, 0, 40, 60)` keeps every coordinate inside the window. -/
theorem bbox_clip_clamps_witness :
    (bbox_clip ⟨-5, 3, 50, 90⟩ ⟨0, 0, 40, 60⟩).y1 =
        max (min (-5 : ℝ) 40) 0 ∧
    (0 : ℝ) ≤ (bbox_clip ⟨-5, 3, 50, 90⟩ ⟨0, 0, 40, 60⟩).y2 ∧
    (bbox_clip ⟨-5, 3, 50, 90⟩ ⟨0, 0, 40, 60⟩).y2 ≤ 40 := by
  have h := bbox_clip_clamps (⟨-5, 3, 50, 90⟩ : Box ℝ) ⟨0, 0, 40, 60⟩
  have h5 := h.2.2.2.2 (by norm_num) (by norm_num)
  exact ⟨h.1, h5.2.2.2.2.1, h5.2.2.2.2.2.1⟩

theorem listMax_cons_cons (x y : ℚ) (t : List ℚ) :
    listMax (x :: y :: t) = max x (listMax (y :: t)) := rfl

theorem le_listMax (l : List ℚ) (x : ℚ) (hx : x ∈ l) : x ≤ listMax l := by
  induction l with
  | nil => cases hx
  | cons a t ih =>
    cases t with
    | nil =>
      rcases List.mem_cons.1 hx with h | h
      · simp [listMax, h]
      · cases h
    | cons b t2 =>
      rw [listMax_cons_cons]
      rcases List.mem_cons.1 hx with h | h
      · exact h ▸ le_max_left _ _
      · exact le_trans (ih h) (le_max_right _ _)

theorem listMax_mem (l : List ℚ) (hl : l ≠ []) : listMax l ∈ l := by
  induction l with
  | nil => exact absurd rfl hl
  | cons a t ih =>
    cases t with
    | nil => simp [listMax]
    | cons b t2 =>
      rw [listMax_cons_cons]
      rcases le_total a (listMax (b :: t2)) with h | h
      · rw [max_eq_right h]
        exact List.mem_cons_of_mem _ (ih (by simp))
      · rw [max_eq_left h]
        exact List.mem_cons_self _ _

theorem listArgmax_lt (l : List ℚ) (hl : l ≠ []) : listArgmax l < l.length := by
  induction l with
  | nil => exact absurd rfl hl
  | cons a t ih =>
    cases t with
    | nil => simp [listArgmax]
    | cons b t2 =>
      show (if a < listMax (b :: t2) then listArgmax (b :: t2) + 1 else 0) < _
      by_cases h : a < listMax (b :: t2)
      · simpa [h] using Nat.succ_lt_succ (ih (by simp))
      · simp [h]

theorem getD_listArgmax (l : List ℚ) (hl : l ≠ []) :
    l.getD (listArgmax l) 0 = listMax l := by
  induction l with
  | nil => exact absurd rfl hl
  | cons a t ih =>
    cases t with
    | nil => simp [listArgmax, listMax]
    | cons b t2 =>
      rw [listMax_cons_cons]
      show (a :: b :: t2).getD (if a < listMax (b :: t2) then listArgmax (b :: t2) + 1 else 0) 0 = _
      by_cases h : a < listMax (b :: t2)
      · rw [if_pos h, List.getD_cons_succ, ih (by simp), max_eq_right (le_of_lt h)]
      · rw [if_neg h, List.getD_cons_zero, max_eq_left (le_of_not_lt h)]

theorem scatterVal_nil (v : ℤ) (labels : List ℤ) : scatterVal v labels [] = labels := rfl

theorem scatterVal_cons (v : ℤ) (labels : List ℤ) (j : Nat) (rest : List Nat) :
    scatterVal v labels (j :: rest) = scatterVal v (labels.set j v) rest := rfl

theorem scatterVal_length (v : ℤ) (idxs : List Nat) (labels : List ℤ) :
    (scatterVal v labels idxs).length = labels.length := by
  induction idxs generalizing labels with
  | nil => rfl
  | cons j rest ih => rw [scatterVal_cons, ih, List.length_set]

theorem getD_set_self (l : List ℤ) (i : Nat) (v d : ℤ) (hi : i < l.length) :
    (l.set i v).getD i d = v := by
  induction l generalizing i with
  | nil => cases hi
  | cons a t ih =>
    cases i with
    | zero => rfl
    | succ k =>
      rw [List.set_cons_succ, List.getD_cons_succ]
      exact ih k (Nat.lt_of_succ_lt_succ hi)

theorem getD_set_ne (l : List ℤ) (i j : Nat) (v d : ℤ) (hij : j ≠ i) :
    (l.set j v).getD i d = l.getD i d := by
  induction l generalizing i j with
  | nil => rfl
  | cons a t ih =>
    cases j with
    | zero =>
      cases i with
      | zero => exact absurd rfl hij
      | succ k => rfl
    | succ m =>
      cases i with
      | zero => rfl
      | succ k =>
        rw [List.set_cons_succ, List.getD_cons_succ, List.getD_cons_succ]
        exact ih k m (fun h => hij (by rw [h]))

theorem getD_eq_default_of_le (l : List ℤ) (i : Nat) (d : ℤ) (hi : l.length ≤ i) :
    l.getD i d = d := by
  induction l generalizing i with
  | nil => rfl
  | cons a t ih =>
    cases i with
    | zero => cases hi
    | succ k => exact ih k (Nat.le_of_succ_le_succ hi)

theorem scatterVal_getD (v : ℤ) (idxs : List Nat) (labels : List ℤ) (i : Nat) (d : ℤ) :
    (scatterVal v labels idxs).getD i d = labels.getD i d ∨
      ((scatterVal v labels idxs).getD i d = v ∧ i ∈ idxs) := by
  induction idxs generalizing labels with
  | nil => exact Or.inl rfl
  | cons j rest ih =>
    rw [scatterVal_cons]
    rcases ih (labels.set j v) with h | ⟨h1, h2⟩
    · by_cases hij : j = i
      · subst hij
        by_cases hj : j < labels.length
        · exact Or.inr ⟨h.trans (getD_set_self labels j v d hj), List.mem_cons_self _ _⟩
        · rw [h, List.set_eq_of_length_le (Nat.le_of_not_lt hj)]
          exact Or.inl rfl
      · rw [h, getD_set_ne labels i j v d hij]
        exact Or.inl rfl
    · exact Or.inr ⟨h1, List.mem_cons_of_mem _ h2⟩

theorem scatterVal_getD_of_getD (v : ℤ) (idxs : List Nat) (labels : List ℤ) (i : Nat)
    (h : labels.getD i 0 = v) : (scatterVal v labels idxs).getD i 0 = v := by
  induction idxs generalizing labels with
  | nil => exact h
  | cons j rest ih =>
    rw [scatterVal_cons]
    refine ih (labels.set j v) ?_
    by_cases hij : j = i
    · subst hij
      by_cases hj : j < labels.length
      · exact getD_set_self labels j v 0 hj
      · rw [List.set_eq_of_length_le (Nat.le_of_not_lt hj)]; exact h
    · rw [getD_set_ne labels i j v 0 hij]; exact h

theorem scatterVal_getD_mem (v : ℤ) (idxs : List Nat) (labels : List ℤ) (i : Nat)
    (hmem : i ∈ idxs) (hi : i < labels.length) :
    (scatterVal v labels idxs).getD i 0 = v := by
  induction idxs generalizing labels with
  | nil => cases hmem
  | cons j rest ih =>
    rw [scatterVal_cons]
    rcases List.mem_cons.1 hmem with h | h
    · subst h
      exact scatterVal_getD_of_getD v rest _ i (getD_set_self labels i v 0 hi)
    · exact ih (labels.set j v) h (by rw [List.length_set]; exact hi)

theorem countP_set_of_getD (l : List ℤ) (n : Nat) (a v : ℤ) (hn : n < l.length)
    (hold : l.getD n 0 = a) (hv : v ≠ a) :
    (l.set n v).countP (· == a) + 1 = l.countP (· == a) := by
  induction l generalizing n with
  | nil => cases hn
  | cons x t ih =>
    cases n with
    | zero =>
      rw [List.getD_cons_zero] at hold
      subst hold
      rw [List.set_cons_zero]
      simp [List.countP_cons, beq_iff_eq, hv]
    | succ k =>
      rw [List.getD_cons_succ] at hold
      rw [List.set_cons_succ]
      simp only [List.countP_cons]
      have := ih k (Nat.lt_of_succ_lt_succ hn) hold
      omega

theorem countP_set_ne (l : List ℤ) (n : Nat) (a v : ℤ) (hold : l.getD n 0 ≠ a) (hv : v ≠ a) :
    (l.set n v).countP (· == a) = l.countP (· == a) := by
  induction l generalizing n with
  | nil => rfl
  | cons x t ih =>
    cases n with
    | zero =>
      rw [List.getD_cons_zero] at hold
      rw [List.set_cons_zero]
      simp [List.countP_cons, beq_iff_eq, hv, hold]
    | succ k =>
      rw [List.getD_cons_succ] at hold
      rw [List.set_cons_succ]
      simp only [List.countP_cons]
      rw [ih k hold]

theorem scatterVal_countP_ne (v a : ℤ) (idxs : List Nat) (labels : List ℤ)
    (hmem : ∀ i ∈ idxs, labels.getD i 0 ≠ a) (hv : v ≠ a) :
    (scatterVal v labels idxs).countP (· == a) = labels.countP (· == a) := by
  induction idxs generalizing labels with
  | nil => rfl
  | cons j rest ih =>
    rw [scatterVal_cons]
    rw [ih (labels.set j v) ?_]
    · exact countP_set_ne labels j a v (hmem j (List.mem_cons_self _ _)) hv
    · intro i hi
      by_cases hij : j = i
      · subst hij
        by_cases hj : j < labels.length
        · rw [getD_set_self labels j v 0 hj]; exact hv
        · rw [List.set_eq_of_length_le (Nat.le_of_not_lt hj)]
          exact hmem j (List.mem_cons_self _ _)
      · rw [getD_set_ne labels i j v 0 hij]
        exact hmem i (List.mem_cons_of_mem _ hi)

theorem scatterVal_countP_sub (v a : ℤ) (idxs : List Nat) (labels : List ℤ)
    (hnd : idxs.Nodup) (hmem : ∀ i ∈ idxs, i < labels.length ∧ labels.getD i 0 = a)
    (hv : v ≠ a) :
    (scatterVal v labels idxs).countP (· == a) + idxs.length = labels.countP (· == a) := by
  induction idxs generalizing labels with
  | nil => simp [scatterVal_nil]
  | cons j rest ih =>
    rw [scatterVal_cons]
    have hj := hmem j (List.mem_cons_self _ _)
    have hnd2 := List.nodup_cons.1 hnd
    have hrest : ∀ i ∈ rest, i < (labels.set j v).length ∧ (labels.set j v).getD i 0 = a := by
      intro i hi
      have hji : j ≠ i := fun h => hnd2.1 (h ▸ hi)
      have hm := hmem i (List.mem_cons_of_mem _ hi)
      exact ⟨by rw [List.length_set]; exact hm.1, by rw [getD_set_ne labels i j v 0 hji]; exact hm.2⟩
    have h1 := ih (labels.set j v) hnd2.2 hrest
    have h2 := countP_set_of_getD labels j a v hj.1 hj.2 hv
    simp only [List.length_cons]
    omega

theorem mem_idsOf (labels : List ℤ) (v : ℤ) (i : Nat) :
    i ∈ idsOf labels v ↔ i < labels.length ∧ labels.getD i 0 = v := by
  simp [idsOf, List.mem_filter, List.mem_range, beq_iff_eq]

theorem idsOf_nodup (labels : List ℤ) (v : ℤ) : (idsOf labels v).Nodup :=
  List.Nodup.filter _ (List.nodup_range _)

theorem idsOf_cons (a : ℤ) (t : List ℤ) (v : ℤ) :
    idsOf (a :: t) v = (if a = v then [0] else []) ++ (idsOf t v).map (· + 1) := by
  rw [idsOf, List.length_cons, List.range_succ_eq_map, List.filter_cons]
  simp only [List.getD_cons_zero, List.filter_map]
  have heq : (List.range t.length).filter ((fun i => (a :: t).getD i 0 == v) ∘ Nat.succ) =
      (List.range t.length).filter (fun i => t.getD i 0 == v) := by
    apply List.filter_congr
    intro i _
    simp [Function.comp]
  rw [heq]
  by_cases h : a = v <;>
    simp [h, idsOf, beq_iff_eq, Nat.succ_eq_add_one]

theorem idsOf_length (labels : List ℤ) (v : ℤ) :
    (idsOf labels v).length = labels.countP (· == v) := by
  induction labels with
  | nil => rfl
  | cons a t ih =>
    rw [idsOf_cons, List.length_append, List.length_map, ih, List.countP_cons]
    by_cases h : a = v <;> simp [h, beq_iff_eq, Nat.add_comm]

theorem getD_range_map (f : Nat → ℤ) (n i : Nat) (h : i < n) :
    ((List.range n).map f).getD i 0 = f i := by
  simp [List.getD_eq_getElem?_getD, List.getElem?_map, List.getElem?_range h]

theorem labelsAfterPos_length (anchors : List (Box ℚ)) (valid : List ℤ) (gts : List (Box ℚ)) :
    (labelsAfterPos anchors valid gts).length = anchors.length := by
  rw [labelsAfterPos, List.length_map, List.length_range]

theorem labelsAfterPos_getD (anchors : List (Box ℚ)) (valid : List ℤ) (gts : List (Box ℚ))
    (i : Nat) (hi : i < anchors.length) :
    (labelsAfterPos anchors valid gts).getD i 0 =
      (let m := anchorIouMax anchors gts i
       let neg : ℤ := if m < 3/10 then -1 else 0
       let val : ℤ := if valid.getD i 0 = 1 then neg else 0
       if 7/10 ≤ m then 1 else val) := by
  rw [labelsAfterPos]
  exact getD_range_map _ anchors.length i hi

theorem labelsAfterForced_length (anchors : List (Box ℚ)) (valid : List ℤ)
    (gts : List (Box ℚ)) :
    (labelsAfterForced anchors valid gts).length = anchors.length := by
  rw [labelsAfterForced, scatterVal_length, labelsAfterPos_length]

theorem overlapsCol_length (anchors gts : List (Box ℚ)) (j : Nat) :
    (overlapsCol anchors gts j).length = anchors.length := by
  rw [overlapsCol, List.length_map]

theorem gtIouArgmax_lt (anchors gts : List (Box ℚ)) (j : Nat) (ha : anchors ≠ []) :
    gtIouArgmax anchors gts j < anchors.length := by
  rw [gtIouArgmax, ← overlapsCol_length anchors gts j]
  exact listArgmax_lt _ (by simp [overlapsCol, ha])

theorem subsamplePos_getD (s1 : List Nat → List Nat) (L : List ℤ) (i : Nat) :
    (subsamplePos s1 L).getD i 0 = L.getD i 0 ∨ (subsamplePos s1 L).getD i 0 = 0 := by
  rw [subsamplePos]
  split
  · rcases scatterVal_getD 0 _ L i 0 with hc | hc
    · exact Or.inl hc
    · exact Or.inr hc.1
  · exact Or.inl rfl

theorem subsampleNeg_getD (s2 : List Nat → List Nat) (L : List ℤ) (i : Nat) :
    (subsampleNeg s2 L).getD i 0 = L.getD i 0 ∨ (subsampleNeg s2 L).getD i 0 = 0 := by
  rw [subsampleNeg]
  split
  · rcases scatterVal_getD 0 _ L i 0 with hc | hc
    · exact Or.inl hc
    · exact Or.inr hc.1
  · exact Or.inl rfl

theorem subsamplePos_length (s1 : List Nat → List Nat) (L : List ℤ) :
    (subsamplePos s1 L).length = L.length := by
  rw [subsamplePos]
  split
  · rw [scatterVal_length]
  · rfl

theorem subsampleNeg_length (s2 : List Nat → List Nat) (L : List ℤ) :
    (subsampleNeg s2 L).length = L.length := by
  rw [subsampleNeg]
  split
  · rw [scatterVal_length]
  · rfl

theorem finalLabels_length (anchors : List (Box ℚ)) (valid : List ℤ) (gts : List (Box ℚ))
    (s1 s2 : List Nat → List Nat) :
    (finalLabels anchors valid gts s1 s2).length = anchors.length := by
  rw [finalLabels, subsampleNeg_length, subsamplePos_length, labelsAfterForced_length]

/-- C3: Guaranteed coverage: on any input with a nonempty anchor set,
immediately after step 8 (the forced-coverage scatter, before subsampling)
every ground-truth box `j` of the trimmed ground-truth list has
`label[gt_iou_argmax[j]] = 1`, regardless of that anchor's IoU value or
validity flag. -/
theorem forced_coverage_after_step8 (anchors : List (Box ℚ)) (valid : List ℤ)
    (gts : List (Box ℚ)) (j : Nat) (ha : anchors ≠ []) (hj : j < gts.length) :
    (labelsAfterForced anchors valid gts).getD (gtIouArgmax anchors gts j) 0 = 1 := by
  rw [labelsAfterForced]
  apply scatterVal_getD_mem
  · exact List.mem_map.2 ⟨j, List.mem_range.2 hj, rfl⟩
  · rw [labelsAfterPos_length]
    exact gtIouArgmax_lt anchors gts j ha

/-- Witness for C3: with one anchor equal to the single ground-truth box, the
anchor chosen by `gt_iou_argmax[0]` carries label 1 after step 8. -/
theorem forced_coverage_after_step8_witness :
    (labelsAfterForced [(⟨0, 0, 10, 10⟩ : Box ℚ)] [1] [⟨0, 0, 10, 10⟩]).getD
      (gtIouArgmax [(⟨0, 0, 10, 10⟩ : Box ℚ)] [⟨0, 0, 10, 10⟩] 0) 0 = 1 :=
  forced_coverage_after_step8 [⟨0, 0, 10, 10⟩] [1] [⟨0, 0, 10, 10⟩] 0
    (by simp) (by simp)

/-- C8: the positive-IoU override is not gated by validity: any anchor `i`
with `anchor_iou_max[i] ≥ 0.7` has label 1 after step 7 and still after
step 8 (i.e. before subsampling), for every validity vector — in particular
for an invalid anchor. -/
theorem high_iou_positive_ungated (anchors : List (Box ℚ)) (valid : List ℤ)
    (gts : List (Box ℚ)) (i : Nat) (hi : i < anchors.length)
    (hm : 7/10 ≤ anchorIouMax anchors gts i) :
    (labelsAfterPos anchors valid gts).getD i 0 = 1 ∧
    (labelsAfterForced anchors valid gts).getD i 0 = 1 := by
  have h1 : (labelsAfterPos anchors valid gts).getD i 0 = 1 := by
    rw [labelsAfterPos_getD anchors valid gts i hi]
    simp only [if_pos hm]
  exact ⟨h1, scatterVal_getD_of_getD 1 _ _ i h1⟩

/-- Witness for C8: a single invalid anchor `(0,0,10,8)` with IoU `4/5 ≥ 0.7`
against the ground-truth box `(0,0,10,10)` is labeled 1 before subsampling. -/
theorem high_iou_positive_ungated_witness :
    (labelsAfterPos [(⟨0, 0, 10, 8⟩ : Box ℚ)] [0] [⟨0, 0, 10, 10⟩]).getD 0 0 = 1 ∧
    (labelsAfterForced [(⟨0, 0, 10, 8⟩ : Box ℚ)] [0] [⟨0, 0, 10, 10⟩]).getD 0 0 = 1 :=
  high_iou_positive_ungated [⟨0, 0, 10, 8⟩] [0] [⟨0, 0, 10, 10⟩] 0
    (by simp) (by with_unfolding_all decide)

theorem buildLabels_eq (anchors : List (Box ℚ)) (valid : List ℤ) (gtBoxesRaw : List (Box ℚ))
    (s1 s2 : List Nat → List Nat) :
    buildLabels anchors valid gtBoxesRaw s1 s2 =
      if trimZeros gtBoxesRaw = [] ∨ anchors = [] then none
      else some (finalLabels anchors valid (trimZeros gtBoxesRaw) s1 s2) := rfl

theorem buildLabels_some (anchors : List (Box ℚ)) (valid : List ℤ) (gtBoxesRaw : List (Box ℚ))
    (s1 s2 : List Nat → List Nat) (labels : List ℤ)
    (hb : buildLabels anchors valid gtBoxesRaw s1 s2 = some labels) :
    trimZeros gtBoxesRaw ≠ [] ∧ anchors ≠ [] ∧
      labels = finalLabels anchors valid (trimZeros gtBoxesRaw) s1 s2 := by
  rw [buildLabels_eq] at hb
  split at hb
  · cases hb
  · next h =>
    push_neg at h
    cases hb
    exact ⟨h.1, h.2, rfl⟩

theorem finalLabels_getD_chain (anchors : List (Box ℚ)) (valid : List ℤ)
    (gts : List (Box ℚ)) (s1 s2 : List Nat → List Nat) (i : Nat) :
    (finalLabels anchors valid gts s1 s2).getD i 0 =
        (labelsAfterForced anchors valid gts).getD i 0 ∨
      (finalLabels anchors valid gts s1 s2).getD i 0 = 0 := by
  rw [finalLabels]
  rcases subsampleNeg_getD s2 _ i with h1 | h1
  · rcases subsamplePos_getD s1 _ i with h2 | h2
    · exact Or.inl (h1.trans h2)
    · exact Or.inr (h1.trans h2)
  · exact Or.inr h1

/-- C4 (amended): an anchor with `valid_flags[i] = 0` never appears in the
returned labels with value -1, and it can carry the final label 1 only via
the positive-IoU override (`anchor_iou_max[i] ≥ 0.7`, step 7) or via the
forced-coverage rule (it is `gt_iou_argmax[j]` of some ground-truth box `j`,
step 8) — the positive-IoU path exists because step 7 is not gated by
validity. -/
theorem invalid_anchor_label_paths (anchors : List (Box ℚ)) (valid : List ℤ)
    (gtBoxesRaw : List (Box ℚ)) (s1 s2 : List Nat → List Nat) (labels : List ℤ) (i : Nat)
    (hb : buildLabels anchors valid gtBoxesRaw s1 s2 = some labels)
    (hv : valid.getD i 0 = 0) :
    labels.getD i 0 ≠ -1 ∧
    (labels.getD i 0 = 1 →
      7/10 ≤ anchorIouMax anchors (trimZeros gtBoxesRaw) i ∨
      ∃ j, j < (trimZeros gtBoxesRaw).length ∧
        gtIouArgmax anchors (trimZeros gtBoxesRaw) j = i) := by
  obtain ⟨-, -, hL⟩ := buildLabels_some anchors valid gtBoxesRaw s1 s2 labels hb
  subst hL
  set gts := trimZeros gtBoxesRaw with hgts
  have hpos : (labelsAfterPos anchors valid gts).getD i 0 ≠ -1 ∧
      ((labelsAfterPos anchors valid gts).getD i 0 = 1 →
        7/10 ≤ anchorIouMax anchors gts i) := by
    by_cases hi : i < anchors.length
    · rw [labelsAfterPos_getD anchors valid gts i hi]
      simp only
      by_cases hm : 7/10 ≤ anchorIouMax anchors gts i
      · rw [if_pos hm]
        exact ⟨by decide, fun _ => hm⟩
      · rw [if_neg hm, if_neg (by rw [hv]; decide)]
        exact ⟨by decide, fun h => absurd h (by decide)⟩
    · rw [getD_eq_default_of_le _ i 0 (by rw [labelsAfterPos_length]; omega)]
      exact ⟨by decide, fun h => absurd h (by decide)⟩
  have hforce : (labelsAfterForced anchors valid gts).getD i 0 ≠ -1 ∧
      ((labelsAfterForced anchors valid gts).getD i 0 = 1 →
        7/10 ≤ anchorIouMax anchors gts i ∨
        ∃ j, j < gts.length ∧ gtIouArgmax anchors gts j = i) := by
    rw [labelsAfterForced]
    rcases scatterVal_getD 1 ((List.range gts.length).map (gtIouArgmax anchors gts))
        (labelsAfterPos anchors valid gts) i 0 with hc | ⟨hc1, hc2⟩
    · rw [hc]
      exact ⟨hpos.1, fun h => Or.inl (hpos.2 h)⟩
    · rw [hc1]
      refine ⟨by decide, fun _ => Or.inr ?_⟩
      obtain ⟨j, hj, hji⟩ := List.mem_map.1 hc2
      exact ⟨j, List.mem_range.1 hj, hji⟩
  rcases finalLabels_getD_chain anchors valid gts s1 s2 i with hc | hc
  · rw [hc]
    exact hforce
  · rw [hc]
    exact ⟨by decide, fun h => absurd h (by decide)⟩

/-- Witness for C4: at the concrete input with the invalid anchor
`(0,0,10,8)` (IoU 4/5 against the single ground-truth box), the returned
label is never -1 and a final label 1 implies one of the two legal paths. -/
theorem invalid_anchor_label_paths_witness :
    (([1] : List ℤ).getD 0 0 ≠ -1) ∧
    (([1] : List ℤ).getD 0 0 = 1 →
      7/10 ≤ anchorIouMax [(⟨0, 0, 10, 8⟩ : Box ℚ)] (trimZeros [⟨0, 0, 10, 10⟩]) 0 ∨
      ∃ j, j < (trimZeros [(⟨0, 0, 10, 10⟩ : Box ℚ)]).length ∧
        gtIouArgmax [(⟨0, 0, 10, 8⟩ : Box ℚ)] (trimZeros [⟨0, 0, 10, 10⟩]) j = 0) :=
  invalid_anchor_label_paths [⟨0, 0, 10, 8⟩] [0] [⟨0, 0, 10, 10⟩] id id [1] 0
    (by with_unfolding_all decide) (by decide)

/-- C4 counterexample: an invalid anchor CAN end up labeled 1 through a path
other than the forced-coverage rule.  Anchor 1 is invalid
(`valid_flags[1] = 0`) and has IoU 4/5 ≥ 0.7 with the single ground-truth
box, whose forced anchor is anchor 0 — yet anchor 1 is returned with
label 1, via the step-7 positive override. -/
theorem invalid_positive_without_forcing :
    buildLabels [(⟨0, 0, 10, 10⟩ : Box ℚ), ⟨0, 0, 10, 8⟩] [1, 0] [⟨0, 0, 10, 10⟩] id id =
      some [1, 1] ∧
    ([1, 0] : List ℤ).getD 1 0 = 0 ∧
    gtIouArgmax [(⟨0, 0, 10, 10⟩ : Box ℚ), ⟨0, 0, 10, 8⟩]
      (trimZeros [⟨0, 0, 10, 10⟩]) 0 = 0 ∧
    (trimZeros [(⟨0, 0, 10, 10⟩ : Box ℚ)]).length = 1 := by
  with_unfolding_all decide

theorem take_of_perm_idsOf (s : List Nat → List Nat) (L : List ℤ) (v : ℤ) (k : Nat)
    (hperm : (s (idsOf L v)).Perm (idsOf L v)) :
    ((s (idsOf L v)).take k).Nodup ∧
    (∀ i ∈ (s (idsOf L v)).take k, i < L.length ∧ L.getD i 0 = v) ∧
    ((s (idsOf L v)).take k).length = min k (idsOf L v).length := by
  refine ⟨List.Nodup.sublist (List.take_sublist _ _)
      (hperm.symm.nodup (idsOf_nodup L v)), ?_, ?_⟩
  · intro i hi
    exact (mem_idsOf L v i).1 (hperm.subset (List.take_subset _ _ hi))
  · rw [List.length_take, hperm.length_eq]

theorem subsamplePos_countP_one (s1 : List Nat → List Nat) (L : List ℤ)
    (hperm : (s1 (idsOf L 1)).Perm (idsOf L 1)) :
    (subsamplePos s1 L).countP (· == 1) = min (L.countP (· == 1)) (numRpnDeltas / 2) := by
  have hlen := idsOf_length L 1
  rw [subsamplePos]
  split
  · next h =>
    obtain ⟨hnd, hmem, hlent⟩ := take_of_perm_idsOf s1 L 1
      (((idsOf L 1).length : ℤ) - ((numRpnDeltas / 2 : Nat) : ℤ)).toNat hperm
    have hsub := scatterVal_countP_sub 0 1 _ L hnd hmem (by decide)
    have h256 : numRpnDeltas = 256 := rfl
    rw [h256] at h hsub hlent ⊢
    omega
  · next h =>
    have h256 : numRpnDeltas = 256 := rfl
    rw [h256] at h ⊢
    omega

theorem subsamplePos_countP_neg (s1 : List Nat → List Nat) (L : List ℤ)
    (hperm : (s1 (idsOf L 1)).Perm (idsOf L 1)) :
    (subsamplePos s1 L).countP (· == (-1)) = L.countP (· == (-1)) := by
  rw [subsamplePos]
  split
  · obtain ⟨-, hmem, -⟩ := take_of_perm_idsOf s1 L 1 _ hperm
    exact scatterVal_countP_ne 0 (-1) _ L
      (fun i hi => by rw [(hmem i hi).2]; decide) (by decide)
  · rfl

theorem subsampleNeg_countP_one (s2 : List Nat → List Nat) (L : List ℤ)
    (hperm : (s2 (idsOf L (-1))).Perm (idsOf L (-1))) :
    (subsampleNeg s2 L).countP (· == 1) = L.countP (· == 1) := by
  rw [subsampleNeg]
  split
  · obtain ⟨-, hmem, -⟩ := take_of_perm_idsOf s2 L (-1) _ hperm
    exact scatterVal_countP_ne 0 1 _ L
      (fun i hi => by rw [(hmem i hi).2]; decide) (by decide)
  · rfl

theorem subsampleNeg_countP_neg (s2 : List Nat → List Nat) (L : List ℤ)
    (hperm : (s2 (idsOf L (-1))).Perm (idsOf L (-1)))
    (hc1 : L.countP (· == 1) ≤ numRpnDeltas) :
    (subsampleNeg s2 L).countP (· == (-1)) =
      min (L.countP (· == (-1))) (numRpnDeltas - L.countP (· == 1)) := by
  have hlen := idsOf_length L (-1)
  rw [subsampleNeg]
  split
  · next h =>
    obtain ⟨hnd, hmem, hlent⟩ := take_of_perm_idsOf s2 L (-1)
      (((idsOf L (-1)).length : ℤ) -
        ((numRpnDeltas : ℤ) - (L.countP (fun v => v == 1) : ℤ))).toNat hperm
    have hsub := scatterVal_countP_sub 0 (-1) _ L hnd hmem (by decide)
    have h256 : numRpnDeltas = 256 := rfl
    rw [h256] at h hsub hlent hc1 ⊢
    omega
  · next h =>
    have h256 : numRpnDeltas = 256 := rfl
    rw [h256] at h hc1 ⊢
    omega

theorem finalLabels_count_bounds (anchors : List (Box ℚ)) (valid : List ℤ)
    (gts : List (Box ℚ)) (s1 s2 : List Nat → List Nat)
    (hs1 : ∀ l, (s1 l).Perm l) (hs2 : ∀ l, (s2 l).Perm l) :
    (finalLabels anchors valid gts s1 s2).countP (· == 1) ≤ numRpnDeltas / 2 ∧
    (finalLabels anchors valid gts s1 s2).countP (· == 1) +
      (finalLabels anchors valid gts s1 s2).countP (· == (-1)) ≤ numRpnDeltas := by
  rw [finalLabels]
  set L3 := labelsAfterForced anchors valid gts with hL3
  set L4 := subsamplePos s1 L3 with hL4
  have h1 : L4.countP (· == 1) = min (L3.countP (· == 1)) (numRpnDeltas / 2) :=
    subsamplePos_countP_one s1 L3 (hs1 _)
  have h2 : (subsampleNeg s2 L4).countP (· == 1) = L4.countP (· == 1) :=
    subsampleNeg_countP_one s2 L4 (hs2 _)
  have h256 : numRpnDeltas = 256 := rfl
  have hle : L4.countP (· == 1) ≤ numRpnDeltas := by
    rw [h1, h256]
    omega
  have h3 : (subsampleNeg s2 L4).countP (· == (-1)) =
      min (L4.countP (· == (-1))) (numRpnDeltas - L4.countP (· == 1)) :=
    subsampleNeg_countP_neg s2 L4 (hs2 _) hle
  rw [h2, h3, h1, h256]
  omega

/-- C5 (amended): after subsampling (steps 9-10), for EVERY input and every
random choice (any permutation oracles), `count(label==1) ≤ num_rpn_deltas/2`
(128) and `count(label==1) + count(label==-1) ≤ num_rpn_deltas` (256) — with
no exception: the positive cap is enforced after the forced-coverage step,
so it holds even when the forced positives alone exceed 128. -/
theorem subsample_count_bounds (anchors : List (Box ℚ)) (valid : List ℤ)
    (gtBoxesRaw : List (Box ℚ)) (s1 s2 : List Nat → List Nat) (labels : List ℤ)
    (hs1 : ∀ l, (s1 l).Perm l) (hs2 : ∀ l, (s2 l).Perm l)
    (hb : buildLabels anchors valid gtBoxesRaw s1 s2 = some labels) :
    labels.countP (· == 1) ≤ numRpnDeltas / 2 ∧
    labels.countP (· == 1) + labels.countP (· == (-1)) ≤ numRpnDeltas := by
  obtain ⟨-, -, hL⟩ := buildLabels_some anchors valid gtBoxesRaw s1 s2 labels hb
  subst hL
  exact finalLabels_count_bounds anchors valid (trimZeros gtBoxesRaw) s1 s2 hs1 hs2

/-- Witness for C5: the count bounds at the concrete one-anchor input with
identity permutation oracles, where the returned labels are `[1]`. -/
theorem subsample_count_bounds_witness :
    ([1] : List ℤ).countP (· == 1) ≤ numRpnDeltas / 2 ∧
    ([1] : List ℤ).countP (· == 1) + ([1] : List ℤ).countP (· == (-1)) ≤ numRpnDeltas :=
  subsample_count_bounds [⟨0, 0, 10, 10⟩] [1] [⟨0, 0, 10, 10⟩] id id [1]
    (fun l => List.Perm.refl l) (fun l => List.Perm.refl l)
    (by with_unfolding_all decide)

theorem getD_map_of_lt {α β : Type} (f : α → β) (l : List α) (k : Nat) (d : α) (z : β)
    (hk : k < l.length) : (l.map f).getD k z = f (l.getD k d) := by
  induction l generalizing k with
  | nil => cases hk
  | cons a t ih =>
    cases k with
    | zero => rfl
    | succ m =>
      simp only [List.map_cons, List.getD_cons_succ]
      exact ih m (Nat.lt_of_succ_lt_succ hk)

theorem getD_replicate_self {α : Type} (n k : Nat) (a : α) :
    (List.replicate n a).getD k a = a := by
  induction n generalizing k with
  | zero => rfl
  | succ m ih =>
    cases k with
    | zero => rfl
    | succ j =>
      simp only [List.replicate_succ, List.getD_cons_succ]
      exact ih j

theorem targetDeltas_eq (anchors gts : List (Box ℚ)) (labels : List ℤ)
    (means stds : Delta ℝ) :
    targetDeltas anchors gts labels means stds =
      (idsOf labels 1).map (fun i =>
        bbox2delta (boxToReal (anchors.getD i zeroQBox))
          (boxToReal (gts.getD (anchorIouArgmax anchors gts i) zeroQBox)) means stds) ++
      List.replicate (numRpnDeltas - (idsOf labels 1).length) zeroDeltaR := by
  rw [targetDeltas]
  simp only [List.map_map, List.zip_map', List.length_map]
  rfl

theorem buildSingleTarget_some (anchors : List (Box ℚ)) (valid : List ℤ)
    (gtBoxesRaw : List (Box ℚ)) (s1 s2 : List Nat → List Nat) (means stds : Delta ℝ)
    (labels : List ℤ) (deltas : List (Delta ℝ))
    (hb : buildSingleTarget anchors valid gtBoxesRaw s1 s2 means stds = some (labels, deltas)) :
    buildLabels anchors valid gtBoxesRaw s1 s2 = some labels ∧
    deltas = targetDeltas anchors (trimZeros gtBoxesRaw) labels means stds := by
  rw [buildSingleTarget] at hb
  cases hbl : buildLabels anchors valid gtBoxesRaw s1 s2 with
  | none => rw [hbl] at hb; cases hb
  | some l2 =>
    rw [hbl] at hb
    simp only [Option.map_some'] at hb
    injection hb with hb2
    have h1 : l2 = labels := congrArg Prod.fst hb2
    have h2 : targetDeltas anchors (trimZeros gtBoxesRaw) l2 means stds = deltas :=
      congrArg Prod.snd hb2
    subst h1
    exact ⟨rfl, h2.symm⟩

/-- C6: DeltaTarget layout: the per-image delta array returned by
`_build_single_target` has exactly `num_rpn_deltas` (256) rows (never
truncated); with `P = count of final positive anchors` and
`i_0 < i_1 < ...` the positive anchor indices in ascending order, row
`k < P` equals `bbox2delta(anchor[i_k], gt_boxes[anchor_iou_argmax[i_k]],
means, stds)`, and every row from `P` on is all-zero padding. -/
theorem delta_target_layout (anchors : List (Box ℚ)) (valid : List ℤ)
    (gtBoxesRaw : List (Box ℚ)) (s1 s2 : List Nat → List Nat) (means stds : Delta ℝ)
    (labels : List ℤ) (deltas : List (Delta ℝ))
    (hs1 : ∀ l, (s1 l).Perm l) (hs2 : ∀ l, (s2 l).Perm l)
    (hb : buildSingleTarget anchors valid gtBoxesRaw s1 s2 means stds = some (labels, deltas)) :
    deltas.length = numRpnDeltas ∧
    (idsOf labels 1).Pairwise (· < ·) ∧
    (∀ k, k < (idsOf labels 1).length →
      deltas.getD k zeroDeltaR =
        bbox2delta (boxToReal (anchors.getD ((idsOf labels 1).getD k 0) zeroQBox))
          (boxToReal ((trimZeros gtBoxesRaw).getD
            (anchorIouArgmax anchors (trimZeros gtBoxesRaw) ((idsOf labels 1).getD k 0))
            zeroQBox)) means stds) ∧
    (∀ k, (idsOf labels 1).length ≤ k → deltas.getD k zeroDeltaR = zeroDeltaR) := by
  obtain ⟨hbl, hd⟩ := buildSingleTarget_some anchors valid gtBoxesRaw s1 s2 means stds
    labels deltas hb
  obtain ⟨-, -, hL⟩ := buildLabels_some anchors valid gtBoxesRaw s1 s2 labels hbl
  have hP : (idsOf labels 1).length ≤ numRpnDeltas / 2 := by
    rw [idsOf_length]
    rw [hL]
    exact (finalLabels_count_bounds anchors valid (trimZeros gtBoxesRaw) s1 s2 hs1 hs2).1
  have h256 : numRpnDeltas = 256 := rfl
  subst hd
  rw [targetDeltas_eq]
  set P := (idsOf labels 1).length with hPdef
  refine ⟨?_, ?_, ?_, ?_⟩
  · rw [List.length_append, List.length_map, List.length_replicate, ← hPdef, h256]
    rw [h256] at hP
    omega
  · exact List.Pairwise.sublist (List.filter_sublist _) (List.pairwise_lt_range _)
  · intro k hk
    rw [List.getD_append _ _ _ _ (by rw [List.length_map]; exact hk)]
    exact getD_map_of_lt _ _ k 0 _ hk
  · intro k hk
    rw [List.getD_append_right _ _ _ _ (by rw [List.length_map]; exact hk)]
    rw [List.length_map]
    exact getD_replicate_self _ _ _

/-- Witness for C6: the delta layout at the concrete one-anchor input whose
single positive anchor coincides with the single ground-truth box. -/
theorem delta_target_layout_witness :
    (targetDeltas [(⟨0, 0, 10, 10⟩ : Box ℚ)] (trimZeros [⟨0, 0, 10, 10⟩]) [1]
        ⟨0, 0, 0, 0⟩ ⟨1, 1, 1, 1⟩).length = numRpnDeltas ∧
    (idsOf [1] 1).Pairwise (· < ·) ∧
    (∀ k, k < (idsOf [1] 1).length →
      (targetDeltas [(⟨0, 0, 10, 10⟩ : Box ℚ)] (trimZeros [⟨0, 0, 10, 10⟩]) [1]
          ⟨0, 0, 0, 0⟩ ⟨1, 1, 1, 1⟩).getD k zeroDeltaR =
        bbox2delta
          (boxToReal (([(⟨0, 0, 10, 10⟩ : Box ℚ)]).getD ((idsOf [1] 1).getD k 0) zeroQBox))
          (boxToReal ((trimZeros [(⟨0, 0, 10, 10⟩ : Box ℚ)]).getD
            (anchorIouArgmax [(⟨0, 0, 10, 10⟩ : Box ℚ)] (trimZeros [⟨0, 0, 10, 10⟩])
              ((idsOf [1] 1).getD k 0)) zeroQBox)) ⟨0, 0, 0, 0⟩ ⟨1, 1, 1, 1⟩) ∧
    (∀ k, (idsOf [1] 1).length ≤ k →
      (targetDeltas [(⟨0, 0, 10, 10⟩ : Box ℚ)] (trimZeros [⟨0, 0, 10, 10⟩]) [1]
          ⟨0, 0, 0, 0⟩ ⟨1, 1, 1, 1⟩).getD k zeroDeltaR = zeroDeltaR) :=
  delta_target_layout [⟨0, 0, 10, 10⟩] [1] [⟨0, 0, 10, 10⟩] id id ⟨0, 0, 0, 0⟩ ⟨1, 1, 1, 1⟩
    [1] (targetDeltas [⟨0, 0, 10, 10⟩] (trimZeros [⟨0, 0, 10, 10⟩]) [1] ⟨0, 0, 0, 0⟩ ⟨1, 1, 1, 1⟩)
    (fun l => List.Perm.refl l) (fun l => List.Perm.refl l)
    (by rw [buildSingleTarget,
          show buildLabels [(⟨0, 0, 10, 10⟩ : Box ℚ)] [1] [⟨0, 0, 10, 10⟩] id id = some [1]
            from by with_unfolding_all decide]
        rfl)

/-- C2 (evaluation at the failing input): with two anchors and a ground-truth
array consisting only of a zero padding row, the trimmed ground-truth list is
empty, so `tf.argmax(overlaps, axis=1)` reduces over an empty axis and raises
`InvalidArgumentError` — modelled as `none` — instead of returning all-negative
labels and zero delta rows. -/
theorem emptyGt_buildSingleTarget_raises :
    buildSingleTarget [(⟨0, 0, 10, 10⟩ : Box ℚ), ⟨100, 100, 110, 110⟩] [1, 1]
      [⟨0, 0, 0, 0⟩] id id ⟨0, 0, 0, 0⟩ ⟨1, 1, 1, 1⟩ = none := by
  rw [buildSingleTarget,
    show buildLabels [(⟨0, 0, 10, 10⟩ : Box ℚ), ⟨100, 100, 110, 110⟩] [1, 1]
      [⟨0, 0, 0, 0⟩] id id = none from by with_unfolding_all decide]
  rfl

theorem unitBox_ne_zero (i : Nat) : unitBox i ≠ zeroQBox := by
  intro h
  have hx : (unitBox i).x2 = (0 : ℚ) := by rw [h]; rfl
  simp [unitBox] at hx

theorem trimZeros_unitAnchors (n : Nat) : trimZeros (unitAnchors n) = unitAnchors n := by
  rw [trimZeros, List.filter_eq_self]
  intro b hb
  obtain ⟨i, -, hbi⟩ := List.mem_map.1 hb
  simpa [hbi.symm] using unitBox_ne_zero i

theorem getD_range (n i : Nat) (h : i < n) : (List.range n).getD i 0 = i := by
  simp [List.getD_eq_getElem?_getD, List.getElem?_range h]

theorem unitAnchors_getD (n i : Nat) (h : i < n) :
    (unitAnchors n).getD i zeroQBox = unitBox i := by
  rw [unitAnchors, getD_map_of_lt unitBox (List.range n) i 0 zeroQBox
    (by rw [List.length_range]; exact h), getD_range n i h]

theorem iou_unitBox (i j : Nat) : iou (unitBox i) (unitBox j) = if i = j then 1 else 0 := by
  rcases eq_or_ne i j with h | h
  · subst h
    norm_num [iou, unitBox, boxArea]
  · rw [if_neg h]
    have key : min ((i : ℚ) + 1) ((j : ℚ) + 1) - max (i : ℚ) (j : ℚ) ≤ 0 := by
      rcases Nat.lt_or_ge i j with hij | hij
      · have h1 : ((i : ℚ) + 1) ≤ (j : ℚ) := by exact_mod_cast Nat.succ_le_of_lt hij
        have h2 : min ((i : ℚ) + 1) ((j : ℚ) + 1) ≤ (i : ℚ) + 1 := min_le_left _ _
        have h3 : (j : ℚ) ≤ max (i : ℚ) (j : ℚ) := le_max_right _ _
        linarith
      · have hji : j < i := Nat.lt_of_le_of_ne hij (fun hh => h hh.symm)
        have h1 : ((j : ℚ) + 1) ≤ (i : ℚ) := by exact_mod_cast Nat.succ_le_of_lt hji
        have h2 : min ((i : ℚ) + 1) ((j : ℚ) + 1) ≤ (j : ℚ) + 1 := min_le_right _ _
        have h3 : (i : ℚ) ≤ max (i : ℚ) (j : ℚ) := le_max_left _ _
        linarith
    show (if ((unitBox i).y2 - (unitBox i).y1) * ((unitBox i).x2 - (unitBox i).x1) +
          ((unitBox j).y2 - (unitBox j).y1) * ((unitBox j).x2 - (unitBox j).x1) -
          max 0 (min (unitBox i).y2 (unitBox j).y2 - max (unitBox i).y1 (unitBox j).y1) *
            max 0 (min (unitBox i).x2 (unitBox j).x2 - max (unitBox i).x1 (unitBox j).x1) = 0
        then (0 : ℚ)
        else max 0 (min (unitBox i).y2 (unitBox j).y2 - max (unitBox i).y1 (unitBox j).y1) *
            max 0 (min (unitBox i).x2 (unitBox j).x2 - max (unitBox i).x1 (unitBox j).x1) /
          (((unitBox i).y2 - (unitBox i).y1) * ((unitBox i).x2 - (unitBox i).x1) +
            ((unitBox j).y2 - (unitBox j).y1) * ((unitBox j).x2 - (unitBox j).x1) -
            max 0 (min (unitBox i).y2 (unitBox j).y2 - max (unitBox i).y1 (unitBox j).y1) *
              max 0 (min (unitBox i).x2 (unitBox j).x2 - max (unitBox i).x1 (unitBox j).x1))) = 0
    have hih : max 0 (min (unitBox i).y2 (unitBox j).y2 -
        max (unitBox i).y1 (unitBox j).y1) = 0 := by
      simp only [unitBox]
      exact max_eq_left key
    rw [hih, zero_mul]
    norm_num [unitBox]

theorem listMax_oneHot (n i : Nat) (hi : i < n) :
    listMax ((List.range n).map (fun j => if i = j then (1 : ℚ) else 0)) = 1 := by
  set l := (List.range n).map (fun j => if i = j then (1 : ℚ) else 0) with hl
  have hmem1 : (1 : ℚ) ∈ l :=
    List.mem_map.2 ⟨i, List.mem_range.2 hi, by rw [if_pos rfl]⟩
  have hne : l ≠ [] := List.ne_nil_of_mem hmem1
  have hle := le_listMax l 1 hmem1
  obtain ⟨j, -, hj⟩ := List.mem_map.1 (listMax_mem l hne)
  by_cases hij : i = j
  · rw [if_pos hij] at hj
    exact hj.symm
  · rw [if_neg hij] at hj
    rw [← hj] at hle
    norm_num at hle

theorem listArgmax_oneHot (n i : Nat) (hi : i < n) :
    listArgmax ((List.range n).map (fun j => if i = j then (1 : ℚ) else 0)) = i := by
  set l := (List.range n).map (fun j => if i = j then (1 : ℚ) else 0) with hl
  have hmem1 : (1 : ℚ) ∈ l :=
    List.mem_map.2 ⟨i, List.mem_range.2 hi, by rw [if_pos rfl]⟩
  have hne : l ≠ [] := List.ne_nil_of_mem hmem1
  have hlen : l.length = n := by rw [hl, List.length_map, List.length_range]
  have hlt : listArgmax l < n := hlen ▸ listArgmax_lt l hne
  have hval : l.getD (listArgmax l) 0 = 1 := by
    rw [getD_listArgmax l hne, listMax_oneHot n i hi]
  rw [hl, getD_map_of_lt _ (List.range n) _ 0 0 (by rw [List.length_range]; exact hlt),
    getD_range n _ hlt] at hval
  by_cases hij : i = listArgmax l
  · exact hij.symm
  · rw [if_neg hij] at hval
    norm_num at hval

theorem overlapsRow_unit (n i : Nat) (hi : i < n) :
    overlapsRow (unitAnchors n) (unitAnchors n) i =
      (List.range n).map (fun j => if i = j then (1 : ℚ) else 0) := by
  rw [overlapsRow, unitAnchors_getD n i hi, unitAnchors, List.map_map]
  apply List.map_congr_left
  intro j _
  simp only [Function.comp]
  exact iou_unitBox i j

theorem overlapsCol_unit (n j : Nat) (hj : j < n) :
    overlapsCol (unitAnchors n) (unitAnchors n) j =
      (List.range n).map (fun i => if j = i then (1 : ℚ) else 0) := by
  rw [overlapsCol, unitAnchors_getD n j hj, unitAnchors, List.map_map]
  apply List.map_congr_left
  intro i _
  simp only [Function.comp]
  rw [iou_unitBox i j]
  by_cases h : i = j
  · rw [if_pos h, if_pos h.symm]
  · rw [if_neg h, if_neg (fun hh => h hh.symm)]

theorem anchorIouMax_unit (n i : Nat) (hi : i < n) :
    anchorIouMax (unitAnchors n) (unitAnchors n) i = 1 := by
  rw [anchorIouMax, overlapsRow_unit n i hi]
  exact listMax_oneHot n i hi

theorem anchorIouArgmax_unit (n i : Nat) (hi : i < n) :
    anchorIouArgmax (unitAnchors n) (unitAnchors n) i = i := by
  rw [anchorIouArgmax, overlapsRow_unit n i hi]
  exact listArgmax_oneHot n i hi

theorem gtIouArgmax_unit (n j : Nat) (hj : j < n) :
    gtIouArgmax (unitAnchors n) (unitAnchors n) j = j := by
  rw [gtIouArgmax, overlapsCol_unit n j hj]
  exact listArgmax_oneHot n j hj

theorem labelsAfterPos_unit (n : Nat) :
    labelsAfterPos (unitAnchors n) (onesFlags n) (unitAnchors n) = List.replicate n 1 := by
  rw [labelsAfterPos, List.eq_replicate_iff]
  constructor
  · rw [List.length_map, List.length_range, unitAnchors, List.length_map, List.length_range]
  · intro b hb
    obtain ⟨i, hi, hbi⟩ := List.mem_map.1 hb
    have hilt : i < n := by
      rw [List.mem_range, unitAnchors, List.length_map, List.length_range] at hi
      exact hi
    rw [← hbi]
    simp only
    rw [if_pos (by rw [anchorIouMax_unit n i hilt]; norm_num)]

theorem scatterVal_replicate (v : ℤ) (n : Nat) (idxs : List Nat) :
    scatterVal v (List.replicate n v) idxs = List.replicate n v := by
  induction idxs with
  | nil => rfl
  | cons j rest ih => rw [scatterVal_cons, List.set_replicate_self, ih]

theorem labelsAfterForced_unit (n : Nat) :
    labelsAfterForced (unitAnchors n) (onesFlags n) (unitAnchors n) = List.replicate n 1 := by
  rw [labelsAfterForced, labelsAfterPos_unit, scatterVal_replicate]

theorem getD_replicate_of_lt {α : Type} (n k : Nat) (a d : α) (hk : k < n) :
    (List.replicate n a).getD k d = a := by
  induction n generalizing k with
  | zero => cases hk
  | succ m ih =>
    cases k with
    | zero => rfl
    | succ j =>
      simp only [List.replicate_succ, List.getD_cons_succ]
      exact ih j (Nat.lt_of_succ_lt_succ hk)

theorem idsOf_replicate_one (n : Nat) : idsOf (List.replicate n 1) 1 = List.range n := by
  rw [idsOf, List.length_replicate, List.filter_eq_self]
  intro i hi
  rw [getD_replicate_of_lt n i 1 0 (List.mem_range.1 hi)]
  decide

theorem countP_one_replicate_one (n : Nat) :
    (List.replicate n (1 : ℤ)).countP (· == 1) = n := by
  rw [List.countP_replicate]
  norm_num

set_option maxRecDepth 4000 in
theorem subsamplePos_unit129 :
    subsamplePos id (List.replicate 129 1) = 0 :: List.replicate 128 1 := by
  decide

set_option maxRecDepth 4000 in
theorem subsampleNeg_unit129 :
    subsampleNeg id (0 :: List.replicate 128 1) = 0 :: List.replicate 128 1 := by
  decide

theorem unitAnchors_ne_nil (n : Nat) (hn : 0 < n) : unitAnchors n ≠ [] := by
  simp [unitAnchors, List.map_eq_nil_iff, List.range_eq_nil]
  omega

theorem finalLabels_unit129 :
    finalLabels (unitAnchors 129) (onesFlags 129) (unitAnchors 129) id id =
      0 :: List.replicate 128 1 := by
  rw [finalLabels, labelsAfterForced_unit, subsamplePos_unit129, subsampleNeg_unit129]

theorem buildLabels_unit129 :
    buildLabels (unitAnchors 129) (onesFlags 129) (unitAnchors 129) id id =
      some (0 :: List.replicate 128 1) := by
  rw [buildLabels_eq, trimZeros_unitAnchors,
    if_neg (by
      intro h
      rcases h with h | h <;> exact unitAnchors_ne_nil 129 (by norm_num) h),
    finalLabels_unit129]

/-- C10: the guaranteed-coverage property does not survive subsampling.  In
the 129-unit-square scenario all 129 anchors are forced positives; step 9
resets the excess anchor 0 (under the identity shuffle), leaving ground-truth
box 0 — whose best anchor is anchor 0 and which overlaps no other anchor —
with no positive anchor in the returned labels: its forced anchor is no
longer labeled 1, and no remaining positive anchor has it as argmax. -/
theorem forced_positive_lost_after_subsampling :
    buildLabels (unitAnchors 129) (onesFlags 129) (unitAnchors 129) id id =
      some (0 :: List.replicate 128 1) ∧
    (labelsAfterForced (unitAnchors 129) (onesFlags 129) (unitAnchors 129)).getD
      (gtIouArgmax (unitAnchors 129) (unitAnchors 129) 0) 0 = 1 ∧
    ((0 :: List.replicate 128 1 : List ℤ)).getD
      (gtIouArgmax (unitAnchors 129) (unitAnchors 129) 0) 0 ≠ 1 ∧
    ((idsOf (0 :: List.replicate 128 1 : List ℤ) 1).all
      (fun i => anchorIouArgmax (unitAnchors 129) (unitAnchors 129) i != 0)) = true := by
  have hg0 : gtIouArgmax (unitAnchors 129) (unitAnchors 129) 0 = 0 :=
    gtIouArgmax_unit 129 0 (by norm_num)
  refine ⟨buildLabels_unit129, ?_, ?_, ?_⟩
  · rw [hg0, labelsAfterForced_unit, getD_replicate_of_lt 129 0 1 0 (by norm_num)]
  · rw [hg0]
    decide
  · rw [List.all_eq_true]
    intro x hx
    obtain ⟨hlt, hval⟩ := (mem_idsOf _ 1 x).1 hx
    have hlt129 : x < 129 := by
      rw [List.length_cons, List.length_replicate] at hlt
      exact hlt
    have hx0 : x ≠ 0 := by
      intro h
      subst h
      rw [List.getD_cons_zero] at hval
      exact absurd hval (by decide)
    rw [anchorIouArgmax_unit 129 x hlt129]
    exact bne_iff_ne.2 hx0

/-- C5 counterexample: a concrete input in the regime the spec claims is
unguaranteed — the forced-positive count (129) alone exceeds
`num_rpn_deltas/2` (128) — yet the returned labels still satisfy both
subsampling bounds: exactly 128 positives and no negatives.  The claimed
possible violation of the positive cap never materialises. -/
theorem forced_overflow_cap_still_holds :
    numRpnDeltas / 2 <
      (labelsAfterForced (unitAnchors 129) (onesFlags 129)
        (unitAnchors 129)).countP (· == 1) ∧
    buildLabels (unitAnchors 129) (onesFlags 129) (unitAnchors 129) id id =
      some (0 :: List.replicate 128 1) ∧
    ((0 :: List.replicate 128 1 : List ℤ)).countP (· == 1) = numRpnDeltas / 2 ∧
    ((0 :: List.replicate 128 1 : List ℤ)).countP (· == 1) +
      ((0 :: List.replicate 128 1 : List ℤ)).countP (· == (-1)) ≤ numRpnDeltas := by
  refine ⟨?_, buildLabels_unit129, ?_, ?_⟩
  · rw [labelsAfterForced_unit, countP_one_replicate_one]
    norm_num [numRpnDeltas]
  · rw [List.countP_cons, countP_one_replicate_one]
    norm_num [numRpnDeltas]
  · rw [List.countP_cons, countP_one_replicate_one, List.countP_cons, List.countP_replicate]
    norm_num [numRpnDeltas]
